import Mathlib

/-!
Shallow embedding of the two pre-commit checkers of this repository:

* `scripts/precommit/check_markdown_links.py` — markdown link extractor and
  link resolver/verifier (`find_relative_links`, `find_repo_root`,
  `verify_links`);
* `scripts/precommit/check_task_links.py` — catalog/state symlink
  consistency checker (`find_repo_root`, `find_file_links`,
  `verify_current_file`, `verify_links`).

Modelling decisions:

* Absolute canonical filesystem paths are modelled as `List String` of path
  segments (the filesystem root is `[]`).  `str(path)` for a nonempty
  absolute path is `"/" ++ intercalation of the segments with "/"`, which
  `pathStr` computes character by character.
* The filesystem itself is an external collaborator.  It is modelled by the
  record `FSView` of the four primitives the scripts call:
  `Path.exists` (follows symlinks), `Path.is_symlink`, `Path.resolve`
  (canonicalisation, taking a possibly `..`/`.`-containing segment list to
  a canonical one) and `Path.glob("*.md")` (returning the entry basenames
  of a directory).
* Python machine behaviour that matters is reproduced exactly:
  `str.startswith` is character-list prefix, `str.lstrip("/")` drops all
  leading slashes, `s[2:]` drops two characters, `pathlib` joining splits
  the right operand on `/` and discards empty and `"."` components,
  `x in s` on strings is substring containment.
* The one unbounded loop (`while target.is_symlink(): target =
  target.resolve()`) is embedded as `followSymlinks` with an explicit
  unrolling depth; every theorem about the verifier is proved for every
  depth, so nothing depends on the truncation.
-/

/-- External filesystem collaborator: the four primitives of `pathlib`
that the two scripts invoke.  Paths are canonical-absolute segment lists
except for the argument of `resolve`, which may still contain `..`/`.`
components. -/
structure FSView where
  pathExists : List String → Bool
  isSymlink : List String → Bool
  resolve : List String → List String
  glob : List String → List String

/-- Characters of `str(path)` for an absolute path: each segment preceded
by a slash (`/a/b/c`). -/
def pathChars : List String → List Char
  | [] => []
  | s :: rest => '/' :: (s.toList ++ pathChars rest)

/-- `str(path)` of an absolute path (nonempty segment list). -/
def pathStr (p : List String) : String :=
  (pathChars p).asString

/-- `str(path.relative_to(root))` rendering used in the task checker's
messages: the segments after the root, joined with `/`. -/
def relStr (root p : List String) : String :=
  String.intercalate "/" (p.drop root.length)

/-- Split a character list at `/` separators (used to model how `pathlib`
parses the right operand of the `/` join operator). -/
def splitSlash : List Char → List (List Char)
  | [] => [[]]
  | '/' :: rest => [] :: splitSlash rest
  | c :: rest =>
    match splitSlash rest with
    | [] => [[c]]
    | seg :: segs => (c :: seg) :: segs

/-- Segments of a relative path string the way `pathlib` parses it: split
on `/`, discard empty components and `"."` components (pathlib normalises
both away; `".."` components are kept). -/
def splitSeg (rel : String) : List String :=
  ((splitSlash rel.toList).map List.asString).filter (fun s => s != "" && s != ".")

/-- `base / rel` of `pathlib` for a relative right operand. -/
def joinPath (base : List String) (rel : String) : List String :=
  base ++ splitSeg rel

/-- Python `s.startswith(pre)`. -/
def strStartsWith (s pre : String) : Bool :=
  pre.toList.isPrefixOf s.toList

/-- Python `s.lstrip("/")`. -/
def lstripSlashes (s : String) : String :=
  (s.toList.dropWhile (fun c => c == '/')).asString

/-- Python `s[2:]`. -/
def strDrop2 (s : String) : String :=
  (s.toList.drop 2).asString

/-- Python `needle in haystack` on strings (substring containment),
character-list form. -/
def containsSub (needle : List Char) : List Char → Bool
  | [] => needle.isEmpty
  | c :: rest => needle.isPrefixOf (c :: rest) || containsSub needle rest

/-- `path.parent.name` of `pathlib`. -/
def parentName (p : List String) : String :=
  p.dropLast.getLastD ""

/-!
## Repository root locator

Both scripts contain the identical function

```
def find_repo_root(start_path):
    current = start_path.resolve()
    while current != current.parent:
        if (current / ".git").exists():
            return current
        current = current.parent
    return start_path.resolve()
```

The upward walk is embedded as structural recursion on the reversed
segment list (`current = current.parent` is `dropLast`, i.e. dropping the
head of the reversed list; the loop guard `current != current.parent`
holds exactly while the segment list is nonempty).
-/

/-- The `while` loop of `find_repo_root`: `rl` is the reversed segment
list of `current`; the loop stops without checking the filesystem root
(`[]`), because there the guard `current != current.parent` fails. -/
def repoScan (gitAt : List String → Bool) : List String → Option (List String)
  | [] => none
  | s :: rest =>
    if gitAt ((s :: rest).reverse) then some ((s :: rest).reverse)
    else repoScan gitAt rest

/-- `find_repo_root` of both scripts over the abstract filesystem. -/
def find_repo_root (fs : FSView) (start : List String) : List String :=
  let resolved := fs.resolve start
  match repoScan (fun p => fs.pathExists (p ++ [".git"])) resolved.reverse with
  | some r => r
  | none => resolved

/-- The ancestor chain of a canonical path, the path itself first, the
filesystem root `[]` last. -/
def ancestorChain (r : List String) : List (List String) :=
  r.reverse.tails.map List.reverse

/-- Claimed contract of the locator, written from the spec's words: return
the first ancestor — including the filesystem root itself — that contains
the `.git` marker, and the resolved start if none does. -/
def find_repo_root_claimed (fs : FSView) (start : List String) : List String :=
  let r := fs.resolve start
  (((ancestorChain r)).find? (fun p => fs.pathExists (p ++ [".git"]))).getD r

/-- Corrected contract: the same first-marked-ancestor search, but over
the ancestors excluding the filesystem root (which the loop never
examines). -/
def find_repo_root_spec (fs : FSView) (start : List String) : List String :=
  let r := fs.resolve start
  (((ancestorChain r).filter (fun p => !p.isEmpty)).find?
      (fun p => fs.pathExists (p ++ [".git"]))).getD r

lemma repoScan_eq_find? (gitAt : List String → Bool) (rl : List String) :
    repoScan gitAt rl
      = ((rl.tails.map List.reverse).filter (fun p => !p.isEmpty)).find? gitAt := by
  induction rl with
  | nil => simp [repoScan, List.tails]
  | cons s rest ih =>
    rw [repoScan, List.tails_cons, List.map_cons, List.filter_cons]
    have hne : (!(s :: rest).reverse.isEmpty) = true := by
      simp [List.isEmpty_iff]
    rw [if_pos hne]
    by_cases h : gitAt ((s :: rest).reverse)
    · rw [if_pos h, List.find?_cons_of_pos _ h]
    · rw [if_neg h, List.find?_cons_of_neg _ h, ih]

/-- A filesystem in which only the root directory carries the `.git`
marker. -/
def rootGitFS : FSView where
  pathExists := fun p => p == [".git"]
  isSymlink := fun _ => false
  resolve := fun p => p
  glob := fun _ => []

/-- C4 counterexample: the claim says the filesystem root itself is among
the examined ancestors.  With the `.git` marker present only at the
filesystem root and starting path `/a`, the code returns `/a` (the
fallback), while the claimed first-marked-ancestor contract returns the
root.  The loop guard `current != current.parent` exits before the root is
ever tested. -/
theorem find_repo_root_skips_root_cx :
    find_repo_root rootGitFS ["a"] = ["a"] ∧
    find_repo_root_claimed rootGitFS ["a"] = [] ∧
    rootGitFS.pathExists ([] ++ [".git"]) = true ∧
    find_repo_root rootGitFS ["a"] ≠ find_repo_root_claimed rootGitFS ["a"] := by
  refine ⟨rfl, rfl, rfl, ?_⟩
  decide

/-- C4 (amended): the locator resolves the starting path and returns the
first ancestor — ascending from the resolved path, but excluding the
filesystem root, which the loop never examines — containing the `.git`
marker; if no such ancestor exists it returns the resolved starting path
unchanged. -/
theorem find_repo_root_first_marked_ancestor (fs : FSView) (start : List String) :
    find_repo_root fs start = find_repo_root_spec fs start := by
  unfold find_repo_root find_repo_root_spec ancestorChain
  simp only [repoScan_eq_find?]
  cases h : (((fs.resolve start).reverse.tails.map List.reverse).filter
      (fun p => !p.isEmpty)).find? (fun p => fs.pathExists (p ++ [".git"])) with
  | none => simp [h]
  | some r => simp [h]

/-!
## Markdown link extractor

`find_relative_links` of `check_markdown_links.py` applies the regex

```
\[([^\]]+)\]\((?!https?://|ftp://|mailto:|#)([^)#\s]+)(?:#[^)]*)?\)
```

with `re.finditer` (left-to-right scan, non-overlapping matches, greedy
quantifiers).  None of the character classes involved can cross its own
terminator, so the regex engine's behaviour on this pattern is
deterministic and is embedded as the recursive scanner below:
`tryLink` attempts a match at the current position, and the scanner either
consumes the whole match or advances one character.
-/

/-- The matches of the regex class `\s` for Python `str` patterns:
Unicode whitespace (CPython's `Py_UNICODE_ISSPACE`), i.e. codepoints
U+0009–U+000D, U+001C–U+0020, U+0085, U+00A0, U+1680, U+2000–U+200A,
U+2028, U+2029, U+202F, U+205F and U+3000. -/
def isSpaceChar (c : Char) : Bool :=
  (9 ≤ c.toNat && c.toNat ≤ 13) || (28 ≤ c.toNat && c.toNat ≤ 32) ||
  c.toNat == 133 || c.toNat == 160 || c.toNat == 5760 ||
  (8192 ≤ c.toNat && c.toNat ≤ 8202) || c.toNat == 8232 || c.toNat == 8233 ||
  c.toNat == 8239 || c.toNat == 8287 || c.toNat == 12288

/-- The regex class `[^)#\s]` of the link-target group. -/
def isTargetChar (c : Char) : Bool :=
  !(c == ')' || c == '#' || isSpaceChar c)

/-- The negative lookahead `(?!https?://|ftp://|mailto:|#)`. -/
def startsProtocol (cs : List Char) : Bool :=
  "http://".toList.isPrefixOf cs || "https://".toList.isPrefixOf cs ||
  "ftp://".toList.isPrefixOf cs || "mailto:".toList.isPrefixOf cs ||
  "#".toList.isPrefixOf cs

/-- Match `(?!…)([^)#\s]+)(?:#[^)]*)?\)` against `rest2` (the characters
after `](`), returning the target group and the remainder after the
closing parenthesis. -/
def parseTarget (rest2 : List Char) : Option (List Char × List Char) :=
  if startsProtocol rest2 then none
  else if (rest2.takeWhile isTargetChar).isEmpty then none
  else
    match rest2.dropWhile isTargetChar with
    | ')' :: rest4 => some (rest2.takeWhile isTargetChar, rest4)
    | '#' :: rest4 =>
      match rest4.dropWhile (fun c => c != ')') with
      | ')' :: rest6 => some (rest2.takeWhile isTargetChar, rest6)
      | _ => none
    | _ => none

/-- Attempt one regex match at the current position: `\[([^\]]+)\]\(`
followed by `parseTarget`.  Returns the captured (display text, target)
pair and the remainder of the input after the match. -/
def tryLink : List Char → Option ((String × String) × List Char)
  | [] => none
  | c :: rest =>
    if c != '[' then none
    else if (rest.takeWhile (fun c => c != ']')).isEmpty then none
    else
      match rest.dropWhile (fun c => c != ']') with
      | ']' :: '(' :: rest2 =>
        match parseTarget rest2 with
        | some (tgt, r) =>
          some (((rest.takeWhile (fun c => c != ']')).asString, tgt.asString), r)
        | none => none
      | _ => none

lemma length_dropWhile_le' (p : Char → Bool) (l : List Char) :
    (l.dropWhile p).length ≤ l.length := by
  induction l with
  | nil => simp [List.dropWhile]
  | cons c rest ih =>
    rw [List.dropWhile_cons]
    by_cases h : p c
    · simp only [h, if_pos]
      exact Nat.le_succ_of_le ih
    · simp [h]

lemma parseTarget_length {rest2 : List Char} {tgt r : List Char}
    (h : parseTarget rest2 = some (tgt, r)) : r.length < rest2.length := by
  have hdw := length_dropWhile_le' isTargetChar rest2
  unfold parseTarget at h
  split at h
  · exact absurd h (by simp)
  · split at h
    · exact absurd h (by simp)
    · split at h
      next rest4 heq =>
        cases h
        rw [heq] at hdw
        simp only [List.length_cons] at hdw
        omega
      next rest4 heq =>
        have hdw2 := length_dropWhile_le' (fun c => c != ')') rest4
        split at h
        next rest6 heq2 =>
          cases h
          rw [heq] at hdw
          rw [heq2] at hdw2
          simp only [List.length_cons] at hdw hdw2
          omega
        next => exact absurd h (by simp)
      next => exact absurd h (by simp)

lemma tryLink_length {cs : List Char} {pr : String × String} {r : List Char}
    (h : tryLink cs = some (pr, r)) : r.length < cs.length := by
  match cs with
  | [] => exact absurd h (by simp [tryLink])
  | c :: rest =>
    rw [tryLink] at h
    split at h
    · exact absurd h (by simp)
    · split at h
      · exact absurd h (by simp)
      · split at h
        next rest2 heq =>
          have hdw := length_dropWhile_le' (fun c => c != ']') rest
          rw [heq] at hdw
          simp only [List.length_cons] at hdw
          split at h
          next tgt r2 heq2 =>
            cases h
            have := parseTarget_length heq2
            simp only [List.length_cons]
            omega
          next => exact absurd h (by simp)
        next => exact absurd h (by simp)

/-- The `re.finditer` scan: try a match at every position, left to right;
on success continue after the match (non-overlapping), otherwise advance
one character.  Structural recursion on an explicit bound; `tryLink`
always consumes at least one character, so any bound of at least the input
length gives the scan's true result (`findLinksAux_fuel`). -/
def findLinksAux : Nat → List Char → List (String × String)
  | 0, _ => []
  | _, [] => []
  | fuel + 1, c :: rest =>
    match tryLink (c :: rest) with
    | some (pr, rest') => pr :: findLinksAux fuel rest'
    | none => findLinksAux fuel rest

lemma findLinksAux_nil (f : Nat) : findLinksAux f [] = [] := by
  cases f <;> rfl

lemma findLinksAux_fuel :
    ∀ f g cs, cs.length ≤ f → cs.length ≤ g → findLinksAux f cs = findLinksAux g cs := by
  intro f
  induction f with
  | zero =>
    intro g cs hf _
    have : cs = [] := by
      cases cs with
      | nil => rfl
      | cons c r => simp at hf
    subst this
    rw [findLinksAux_nil, findLinksAux_nil]
  | succ f ih =>
    intro g cs hf hg
    cases cs with
    | nil => rw [findLinksAux_nil, findLinksAux_nil]
    | cons c rest =>
      cases g with
      | zero => simp at hg
      | succ g =>
        rw [findLinksAux, findLinksAux]
        cases h : tryLink (c :: rest) with
        | none =>
          simp only [List.length_cons] at hf hg
          exact ih g rest (by omega) (by omega)
        | some pr =>
          obtain ⟨pr, rest'⟩ := pr
          have hlen := tryLink_length h
          simp only [List.length_cons] at hf hg hlen
          dsimp only
          exact congrArg (pr :: ·) (ih g rest' (by omega) (by omega))

/-- The finditer scan of a character list (fuel instantiated with the
input length, which `findLinksAux_fuel` shows is enough). -/
def scanLinks (cs : List Char) : List (String × String) :=
  findLinksAux cs.length cs

/-- `find_relative_links` of `check_markdown_links.py`. -/
def find_relative_links (content : String) : List (String × String) :=
  scanLinks content.toList

lemma scanLinks_cons_some {c : Char} {rest : List Char} {pr : String × String}
    {rest' : List Char} (h : tryLink (c :: rest) = some (pr, rest')) :
    scanLinks (c :: rest) = pr :: scanLinks rest' := by
  unfold scanLinks
  rw [List.length_cons, findLinksAux, h]
  have hlen := tryLink_length h
  simp only [List.length_cons] at hlen
  dsimp only
  exact congrArg (pr :: ·)
    (findLinksAux_fuel rest.length rest'.length rest' (by omega) (by omega))

lemma scanLinks_cons_none {c : Char} {rest : List Char}
    (h : tryLink (c :: rest) = none) :
    scanLinks (c :: rest) = scanLinks rest := by
  unfold scanLinks
  rw [List.length_cons, findLinksAux, h]

lemma takeWhile_dropWhile_middle (p : Char → Bool) (l r : List Char)
    (hl : ∀ c ∈ l, p c = true) (hr : ∀ c, r.head? = some c → p c = false) :
    (l ++ r).takeWhile p = l ∧ (l ++ r).dropWhile p = r := by
  induction l with
  | nil =>
    simp only [List.nil_append]
    cases r with
    | nil => simp
    | cons c r' =>
      have hc := hr c rfl
      rw [List.takeWhile_cons, List.dropWhile_cons, hc]
      simp
  | cons c l' ih =>
    have hc : p c = true := hl c (by simp)
    obtain ⟨tw, dw⟩ := ih (fun d hd => hl d (by simp [hd]))
    rw [List.cons_append, List.takeWhile_cons, List.dropWhile_cons, hc]
    simp [tw, dw]

lemma parseTarget_complete {p anchor post : List Char}
    (hp : p ≠ []) (hpc : ∀ c ∈ p, isTargetChar c = true)
    (hproto : startsProtocol (p ++ (anchor ++ ')' :: post)) = false)
    (hanchor : anchor = [] ∨ ∃ fr, anchor = '#' :: fr ∧ ∀ c ∈ fr, c ≠ ')') :
    parseTarget (p ++ (anchor ++ ')' :: post)) = some (p, post) := by
  have hne : p.isEmpty = false := by
    cases p with
    | nil => exact absurd rfl hp
    | cons a l => rfl
  have hhead : ∀ c, (anchor ++ ')' :: post).head? = some c → isTargetChar c = false := by
    rcases hanchor with rfl | ⟨fr, rfl, hfr⟩
    · intro c hc
      simp only [List.nil_append, List.head?_cons, Option.some.injEq] at hc
      subst hc; decide
    · intro c hc
      simp only [List.cons_append, List.head?_cons, Option.some.injEq] at hc
      subst hc; decide
  obtain ⟨tw, dw⟩ := takeWhile_dropWhile_middle isTargetChar p (anchor ++ ')' :: post) hpc hhead
  unfold parseTarget
  rw [hproto, tw, dw, hne]
  rcases hanchor with rfl | ⟨fr, rfl, hfr⟩
  · simp
  · simp only [List.cons_append, Bool.false_eq_true, if_false]
    have hfr' : ∀ c ∈ fr, (fun c => c != ')') c = true := by
      intro c hc
      simpa using hfr c hc
    obtain ⟨_, dw2⟩ := takeWhile_dropWhile_middle (fun c => c != ')') fr (')' :: post) hfr'
      (by intro c hc
          simp only [List.head?_cons, Option.some.injEq] at hc
          subst hc; decide)
    rw [dw2]
    rfl

lemma tryLink_not_bracket {c : Char} (hc : c ≠ '[') (cs : List Char) :
    tryLink (c :: cs) = none := by
  rw [tryLink, if_pos (by simpa using hc)]

lemma tryLink_complete {t p anchor post : List Char}
    (ht : t ≠ []) (htc : ∀ c ∈ t, c ≠ ']')
    (hp : p ≠ []) (hpc : ∀ c ∈ p, isTargetChar c = true)
    (hproto : startsProtocol (p ++ (anchor ++ ')' :: post)) = false)
    (hanchor : anchor = [] ∨ ∃ fr, anchor = '#' :: fr ∧ ∀ c ∈ fr, c ≠ ')') :
    tryLink ('[' :: (t ++ (']' :: '(' :: (p ++ (anchor ++ ')' :: post)))))
      = some ((t.asString, p.asString), post) := by
  have htc' : ∀ c ∈ t, (fun c => c != ']') c = true := by
    intro c hc
    simpa using htc c hc
  obtain ⟨tw, dw⟩ := takeWhile_dropWhile_middle (fun c => c != ']') t
    (']' :: '(' :: (p ++ (anchor ++ ')' :: post))) htc'
    (by intro c hc
        simp only [List.head?_cons, Option.some.injEq] at hc
        subst hc; decide)
  have hne : ((t ++ (']' :: '(' :: (p ++ (anchor ++ ')' :: post)))).takeWhile
      (fun c => c != ']')).isEmpty = false := by
    rw [tw]
    cases t with
    | nil => exact absurd rfl ht
    | cons a l => rfl
  rw [tryLink, if_neg (by decide), hne, dw]
  simp only [Bool.false_eq_true, if_false]
  rw [parseTarget_complete hp hpc hproto hanchor, tw]

lemma scanLinks_append_of_no_bracket {pre : List Char}
    (hpre : ∀ c ∈ pre, c ≠ '[') (cs : List Char) :
    scanLinks (pre ++ cs) = scanLinks cs := by
  induction pre with
  | nil => rfl
  | cons c pre ih =>
    have hc : c ≠ '[' := hpre c (by simp)
    rw [List.cons_append, scanLinks_cons_none (tryLink_not_bracket hc _)]
    exact ih (fun d hd => hpre d (by simp [hd]))

lemma startsProtocol_mono {l m : List Char} (hlm : l <+: m)
    (h : startsProtocol l = true) : startsProtocol m = true := by
  unfold startsProtocol at h ⊢
  simp only [Bool.or_eq_true, List.isPrefixOf_iff_prefix] at h ⊢
  rcases h with ((((h | h) | h) | h) | h)
  · exact Or.inl (Or.inl (Or.inl (Or.inl (h.trans hlm))))
  · exact Or.inl (Or.inl (Or.inl (Or.inr (h.trans hlm))))
  · exact Or.inl (Or.inl (Or.inr (h.trans hlm)))
  · exact Or.inl (Or.inr (h.trans hlm))
  · exact Or.inr (h.trans hlm)

lemma parseTarget_props {rest2 tgt r : List Char}
    (h : parseTarget rest2 = some (tgt, r)) :
    tgt ≠ [] ∧ (∀ c ∈ tgt, isTargetChar c = true) ∧ startsProtocol tgt = false := by
  have key : tgt = rest2.takeWhile isTargetChar ∧
      startsProtocol rest2 = false ∧ (rest2.takeWhile isTargetChar).isEmpty = false := by
    unfold parseTarget at h
    split at h
    · exact absurd h (by simp)
    · rename_i hng
      split at h
      · exact absurd h (by simp)
      · rename_i hne
        split at h
        next rest4 heq =>
          cases h
          exact ⟨rfl, by simpa using hng, by simpa using hne⟩
        next rest4 heq =>
          split at h
          next rest6 heq2 =>
            cases h
            exact ⟨rfl, by simpa using hng, by simpa using hne⟩
          next => exact absurd h (by simp)
        next => exact absurd h (by simp)
  obtain ⟨rfl, hng, hne⟩ := key
  refine ⟨?_, fun c hc => List.mem_takeWhile_imp hc, ?_⟩
  · intro hnil
    rw [hnil] at hne
    exact absurd hne (by simp)
  · cases hsp : startsProtocol (rest2.takeWhile isTargetChar) with
    | false => rfl
    | true =>
      have hm := startsProtocol_mono (List.takeWhile_prefix isTargetChar) hsp
      rw [hng] at hm
      exact absurd hm (by simp)

lemma tryLink_target {cs : List Char} {pr : String × String} {r : List Char}
    (h : tryLink cs = some (pr, r)) :
    pr.2.toList ≠ [] ∧ (∀ c ∈ pr.2.toList, isTargetChar c = true) ∧
      startsProtocol pr.2.toList = false := by
  match cs with
  | [] => exact absurd h (by simp [tryLink])
  | c :: rest =>
    rw [tryLink] at h
    split at h
    · exact absurd h (by simp)
    · split at h
      · exact absurd h (by simp)
      · split at h
        next rest2 heq =>
          split at h
          next tgt r2 heq2 =>
            cases h
            have hprops := parseTarget_props heq2
            exact hprops
          next => exact absurd h (by simp)
        next => exact absurd h (by simp)

lemma scanLinks_bounded_target_ok :
    ∀ (n : Nat) (cs : List Char), cs.length ≤ n → ∀ pr ∈ scanLinks cs,
      pr.2.toList ≠ [] ∧ (∀ c ∈ pr.2.toList, isTargetChar c = true) ∧
        startsProtocol pr.2.toList = false := by
  intro n
  induction n with
  | zero =>
    intro cs h pr hpr
    have : cs = [] := by
      cases cs with
      | nil => rfl
      | cons c r => simp at h
    subst this
    simp [scanLinks, findLinksAux] at hpr
  | succ n ih =>
    intro cs h pr hpr
    cases cs with
    | nil => simp [scanLinks, findLinksAux] at hpr
    | cons c rest =>
      simp only [List.length_cons] at h
      cases htl : tryLink (c :: rest) with
      | none =>
        rw [scanLinks_cons_none htl] at hpr
        exact ih rest (by omega) pr hpr
      | some pres =>
        obtain ⟨pr0, rest'⟩ := pres
        rw [scanLinks_cons_some htl] at hpr
        rcases List.mem_cons.mp hpr with rfl | hpr'
        · exact tryLink_target htl
        · have hlen := tryLink_length htl
          simp only [List.length_cons] at hlen
          exact ih rest' (by omega) pr hpr'

lemma scanLinks_target_ok (cs : List Char) :
    ∀ pr ∈ scanLinks cs,
      pr.2.toList ≠ [] ∧ (∀ c ∈ pr.2.toList, isTargetChar c = true) ∧
        startsProtocol pr.2.toList = false :=
  scanLinks_bounded_target_ok cs.length cs le_rfl

/-- C3 counterexample: the document `[a]([t](p))` contains the well-formed
inline link `[t](p)` (as the decomposition in the first conjunct shows;
`t` is nonempty without `]`, `p` is a nonempty protocol-free target), yet
the extractor produces no pair with target `p`: the enclosing `[a](…)`
match swallows the occurrence, producing the single pair
`("a", "[t](p")`.  So "exactly one pair per well-formed occurrence" fails
as stated. -/
theorem nested_link_swallowed_cx :
    ("[a]([t](p))" : String).toList
      = ("[a](" : String).toList ++ ("[t](p)" : String).toList ++ (")" : String).toList ∧
    find_relative_links "[a]([t](p))" = [("a", "[t](p")] ∧
    (∀ pr ∈ find_relative_links "[a]([t](p))", pr.2 ≠ "p") := by
  refine ⟨by decide, by decide, by decide⟩

/-- C3 (amended): for a well-formed inline link occurrence
`[t](p#fragment?)` that is not swallowed by an earlier match — in
particular whenever the text before it contains no `[` — the extractor
produces exactly one pair for the occurrence, whose target is `p` with the
anchor fragment stripped, and then continues with the rest of the
document; moreover no extracted target ever carries a protocol prefix
(`http://`, `https://`, `ftp://`), a mail prefix (`mailto:`), or a leading
`#` (pure anchor). -/
theorem md_extract_wellformed_link
    (pre t p anchor post : List Char)
    (hpre : ∀ c ∈ pre, c ≠ '[')
    (ht : t ≠ []) (htc : ∀ c ∈ t, c ≠ ']')
    (hp : p ≠ []) (hpc : ∀ c ∈ p, isTargetChar c = true)
    (hproto : startsProtocol (p ++ (anchor ++ ')' :: post)) = false)
    (hanchor : anchor = [] ∨ ∃ fr, anchor = '#' :: fr ∧ ∀ c ∈ fr, c ≠ ')') :
    scanLinks (pre ++ '[' :: (t ++ (']' :: '(' :: (p ++ (anchor ++ ')' :: post)))))
      = (t.asString, p.asString) :: scanLinks post ∧
    (∀ (content : String), ∀ pr ∈ find_relative_links content,
      startsProtocol pr.2.toList = false) := by
  constructor
  · rw [scanLinks_append_of_no_bracket hpre]
    exact scanLinks_cons_some (tryLink_complete ht htc hp hpc hproto hanchor)
  · intro content pr hpr
    exact (scanLinks_target_ok content.toList pr hpr).2.2

/-- C3 amended-claim witness: the single-link document `[x](a.md)`. -/
theorem md_extract_wellformed_link_witness :
    scanLinks ([] ++ '[' :: (['x'] ++ (']' :: '(' :: (['a', '.', 'm', 'd'] ++ ([] ++ ')' :: [])))))
      = (['x'].asString, ['a', '.', 'm', 'd'].asString) :: scanLinks [] ∧
    (∀ (content : String), ∀ pr ∈ find_relative_links content,
      startsProtocol pr.2.toList = false) :=
  md_extract_wellformed_link [] ['x'] ['a', '.', 'm', 'd'] [] []
    (by decide) (by decide) (by decide) (by decide) (by decide) (by decide)
    (Or.inl rfl)

/-- C9: every target the extractor yields is a nonempty string whose
characters exclude whitespace, `)` and `#`; links whose parenthesized
target contains such a character are simply never extracted. -/
theorem extracted_target_char_discipline (content : String)
    (pr : String × String) (hpr : pr ∈ find_relative_links content) :
    pr.2.toList ≠ [] ∧ ∀ c ∈ pr.2.toList,
      c ≠ ')' ∧ c ≠ '#' ∧ isSpaceChar c = false := by
  obtain ⟨hne, hmem, _⟩ := scanLinks_target_ok content.toList pr hpr
  refine ⟨hne, fun c hc => ?_⟩
  have htc := hmem c hc
  unfold isTargetChar at htc
  simp only [Bool.not_eq_true', Bool.or_eq_false_iff, beq_eq_false_iff_ne, ne_eq] at htc
  exact ⟨htc.1.1, htc.1.2, htc.2⟩

/-- C9 witness at the document `[t](a.md)` and its extracted pair. -/
theorem extracted_target_char_discipline_witness :
    ("a.md" : String).toList ≠ [] ∧ ∀ c ∈ ("a.md" : String).toList,
      c ≠ ')' ∧ c ≠ '#' ∧ isSpaceChar c = false :=
  extracted_target_char_discipline "[t](a.md)" ("t", "a.md") (by decide)

/-!
## Markdown link resolver and verifier

`verify_links(file_path, links)` of `check_markdown_links.py`:

```
repo_root = find_repo_root(file_path)
if "examples" in str(file_path): return []
for _link_text, link_path in links:
    if link_path.startswith("/"): target = (repo_root / link_path.lstrip("/")).resolve()
    elif link_path.startswith("./"): target = (file_path.parent / link_path[2:]).resolve()
    else: target = (file_path.parent / link_path).resolve()
    while target.is_symlink(): target = target.resolve()
    if not target.exists(): errors.append(broken); continue
    try: target.relative_to(repo_root)
    except ValueError: errors.append(outside)
```

`Path.relative_to` succeeds exactly when the root's segments are a prefix
of the target's segments.  The `try/except` around the body only fires on
filesystem exceptions, which the total abstract primitives cannot raise,
so the `ResolutionError` branch is unreachable in the model.
-/

namespace MdCheck

/-- The `while target.is_symlink(): target = target.resolve()` loop,
unrolled a given number of times (the verifier theorems hold for every
unrolling depth). -/
def followSymlinks (fs : FSView) : Nat → List String → List String
  | 0, t => t
  | n + 1, t => if fs.isSymlink t then followSymlinks fs n (fs.resolve t) else t

/-- The candidate path of one link: root-relative (`/…`), `./`-prefixed,
or bare relative form. -/
def mdCandidate (repo_root file_path : List String) (link_path : String) : List String :=
  if strStartsWith link_path "/" then joinPath repo_root (lstripSlashes link_path)
  else if strStartsWith link_path "./" then joinPath file_path.dropLast (strDrop2 link_path)
  else joinPath file_path.dropLast link_path

/-- The local variable `target` after `.resolve()` and the symlink loop. -/
def mdResolvedTarget (fs : FSView) (fuel : Nat) (repo_root file_path : List String)
    (link_path : String) : List String :=
  followSymlinks fs fuel (fs.resolve (mdCandidate repo_root file_path link_path))

/-- `f"{file_path}: Broken link: {link_path} -> {target}"`. -/
def brokenMsg (file_path : List String) (link_path : String) (target : List String) : String :=
  pathStr file_path ++ ": Broken link: " ++ link_path ++ " -> " ++ pathStr target

/-- `f"{file_path}: Link {link_path} points outside repository"`. -/
def outsideMsg (file_path : List String) (link_path : String) : String :=
  pathStr file_path ++ ": Link " ++ link_path ++ " points outside repository"

/-- The loop body for one link of `verify_links`. -/
def processLink (fs : FSView) (fuel : Nat) (repo_root file_path : List String)
    (link_path : String) : List String :=
  if !fs.pathExists (mdResolvedTarget fs fuel repo_root file_path link_path) then
    [brokenMsg file_path link_path (mdResolvedTarget fs fuel repo_root file_path link_path)]
  else if !repo_root.isPrefixOf (mdResolvedTarget fs fuel repo_root file_path link_path) then
    [outsideMsg file_path link_path]
  else []

/-- The `for _link_text, link_path in links` loop of `verify_links`. -/
def verifyLoop (fs : FSView) (fuel : Nat) (repo_root file_path : List String) :
    List (String × String) → List String
  | [] => []
  | (_, lp) :: rest =>
    processLink fs fuel repo_root file_path lp ++ verifyLoop fs fuel repo_root file_path rest

/-- `verify_links` of `check_markdown_links.py`. -/
def verify_links (fs : FSView) (fuel : Nat) (file_path : List String)
    (links : List (String × String)) : List String :=
  if containsSub ("examples".toList) (pathChars file_path) then []
  else verifyLoop fs fuel (find_repo_root fs file_path) file_path links

end MdCheck

/-- C5: for one extracted link, the broken-link and outside-repository
errors never co-occur: a non-existent resolved target yields exactly the
broken-link error (existence is checked first and `continue` short
circuits the containment check), an outside-repository error is possible
only for a target that exists, each link contributes at most one error,
and the loop always proceeds to the remaining links. -/
theorem md_broken_outside_exclusive (fs : FSView) (fuel : Nat)
    (repo_root file_path : List String) (t lp : String) (rest : List (String × String)) :
    (fs.pathExists (MdCheck.mdResolvedTarget fs fuel repo_root file_path lp) = false →
      MdCheck.processLink fs fuel repo_root file_path lp
        = [MdCheck.brokenMsg file_path lp
            (MdCheck.mdResolvedTarget fs fuel repo_root file_path lp)]) ∧
    (fs.pathExists (MdCheck.mdResolvedTarget fs fuel repo_root file_path lp) = true →
      MdCheck.processLink fs fuel repo_root file_path lp = [] ∨
      MdCheck.processLink fs fuel repo_root file_path lp
        = [MdCheck.outsideMsg file_path lp]) ∧
    (MdCheck.processLink fs fuel repo_root file_path lp).length ≤ 1 ∧
    MdCheck.verifyLoop fs fuel repo_root file_path ((t, lp) :: rest)
      = MdCheck.processLink fs fuel repo_root file_path lp
        ++ MdCheck.verifyLoop fs fuel repo_root file_path rest := by
  refine ⟨fun hex => ?_, fun hex => ?_, ?_, rfl⟩
  · simp [MdCheck.processLink, hex]
  · by_cases hin : repo_root.isPrefixOf
        (MdCheck.mdResolvedTarget fs fuel repo_root file_path lp)
    · exact Or.inl (by simp [MdCheck.processLink, hex, hin])
    · exact Or.inr (by simp [MdCheck.processLink, hex, hin])
  · unfold MdCheck.processLink
    split
    · simp
    · split
      · simp
      · simp

/-- C5 witness: a broken `./missing.md` link. -/
theorem md_broken_outside_exclusive_witness :
    MdCheck.processLink rootGitFS 0 ["r"] ["r", "d", "f.md"] "./missing.md"
      = [MdCheck.brokenMsg ["r", "d", "f.md"] "./missing.md"
          (MdCheck.mdResolvedTarget rootGitFS 0 ["r"] ["r", "d", "f.md"] "./missing.md")] :=
  (md_broken_outside_exclusive rootGitFS 0 ["r"] ["r", "d", "f.md"] "x" "./missing.md" []).1
    (by decide)

/-- C7: for the same source document, a root-relative link `s1 = /…`, a
`./`-prefixed link `s2 = ./s3` and the bare relative link `s3` that
denote the same existing, repository-contained file (the `hjoin`
hypothesis states that the root-relative join and the
document-directory-relative join build the same candidate path) all
resolve to the identical absolute target and all verify without error. -/
theorem md_relative_forms_agree (fs : FSView) (fuel : Nat)
    (file_path : List String) (s1 s2 s3 : String) (rr : List Char)
    (h1 : s1.toList = '/' :: rr)
    (h2 : s2.toList = '.' :: '/' :: s3.toList)
    (h3a : strStartsWith s3 "/" = false)
    (h3b : strStartsWith s3 "./" = false)
    (hjoin : joinPath (find_repo_root fs file_path) (lstripSlashes s1)
      = joinPath file_path.dropLast s3)
    (hex : fs.pathExists (MdCheck.mdResolvedTarget fs fuel (find_repo_root fs file_path)
      file_path s3) = true)
    (hin : (find_repo_root fs file_path).isPrefixOf
      (MdCheck.mdResolvedTarget fs fuel (find_repo_root fs file_path) file_path s3) = true) :
    MdCheck.mdResolvedTarget fs fuel (find_repo_root fs file_path) file_path s1
      = MdCheck.mdResolvedTarget fs fuel (find_repo_root fs file_path) file_path s3 ∧
    MdCheck.mdResolvedTarget fs fuel (find_repo_root fs file_path) file_path s2
      = MdCheck.mdResolvedTarget fs fuel (find_repo_root fs file_path) file_path s3 ∧
    MdCheck.processLink fs fuel (find_repo_root fs file_path) file_path s1 = [] ∧
    MdCheck.processLink fs fuel (find_repo_root fs file_path) file_path s2 = [] ∧
    MdCheck.processLink fs fuel (find_repo_root fs file_path) file_path s3 = [] := by
  have hslash : ("/" : String).toList = ['/'] := by decide
  have hdotslash : ("./" : String).toList = ['.', '/'] := by decide
  have b1 : strStartsWith s1 "/" = true := by
    unfold strStartsWith
    rw [hslash, h1]
    simp [List.isPrefixOf]
  have b2a : strStartsWith s2 "/" = false := by
    unfold strStartsWith
    rw [hslash, h2]
    simp [List.isPrefixOf]
  have b2b : strStartsWith s2 "./" = true := by
    unfold strStartsWith
    rw [hdotslash, h2]
    simp [List.isPrefixOf]
  have d2 : strDrop2 s2 = s3 := by
    unfold strDrop2
    rw [h2]
    rfl
  have c1 : MdCheck.mdCandidate (find_repo_root fs file_path) file_path s1
      = joinPath (find_repo_root fs file_path) (lstripSlashes s1) := by
    unfold MdCheck.mdCandidate
    rw [b1]
    rfl
  have c2 : MdCheck.mdCandidate (find_repo_root fs file_path) file_path s2
      = joinPath file_path.dropLast s3 := by
    unfold MdCheck.mdCandidate
    rw [b2a, b2b, d2]
    rfl
  have c3 : MdCheck.mdCandidate (find_repo_root fs file_path) file_path s3
      = joinPath file_path.dropLast s3 := by
    unfold MdCheck.mdCandidate
    rw [h3a, h3b]
    rfl
  have t1 : MdCheck.mdResolvedTarget fs fuel (find_repo_root fs file_path) file_path s1
      = MdCheck.mdResolvedTarget fs fuel (find_repo_root fs file_path) file_path s3 := by
    unfold MdCheck.mdResolvedTarget
    rw [c1, hjoin, c3]
  have t2 : MdCheck.mdResolvedTarget fs fuel (find_repo_root fs file_path) file_path s2
      = MdCheck.mdResolvedTarget fs fuel (find_repo_root fs file_path) file_path s3 := by
    unfold MdCheck.mdResolvedTarget
    rw [c2, c3]
  refine ⟨t1, t2, ?_, ?_, ?_⟩
  · simp [MdCheck.processLink, t1, hex, hin]
  · simp [MdCheck.processLink, t2, hex, hin]
  · simp [MdCheck.processLink, hex, hin]

/-- Filesystem for the C7 witness: a repository at `/repo` with marker
`/repo/.git` and a file `/repo/docs/t.md`; no symlinks. -/
def c7FS : FSView where
  pathExists := fun p => p == ["repo", ".git"] || p == ["repo", "docs", "t.md"]
  isSymlink := fun _ => false
  resolve := fun p => p
  glob := fun _ => []

/-- C7 witness: from `/repo/docs/a.md`, the links `/docs/t.md`, `./t.md`
and `t.md` all resolve to `/repo/docs/t.md` with no error. -/
theorem md_relative_forms_agree_witness :
    MdCheck.mdResolvedTarget c7FS 1 (find_repo_root c7FS ["repo", "docs", "a.md"])
        ["repo", "docs", "a.md"] "/docs/t.md"
      = MdCheck.mdResolvedTarget c7FS 1 (find_repo_root c7FS ["repo", "docs", "a.md"])
        ["repo", "docs", "a.md"] "t.md" ∧
    MdCheck.mdResolvedTarget c7FS 1 (find_repo_root c7FS ["repo", "docs", "a.md"])
        ["repo", "docs", "a.md"] "./t.md"
      = MdCheck.mdResolvedTarget c7FS 1 (find_repo_root c7FS ["repo", "docs", "a.md"])
        ["repo", "docs", "a.md"] "t.md" ∧
    MdCheck.processLink c7FS 1 (find_repo_root c7FS ["repo", "docs", "a.md"])
      ["repo", "docs", "a.md"] "/docs/t.md" = [] ∧
    MdCheck.processLink c7FS 1 (find_repo_root c7FS ["repo", "docs", "a.md"])
      ["repo", "docs", "a.md"] "./t.md" = [] ∧
    MdCheck.processLink c7FS 1 (find_repo_root c7FS ["repo", "docs", "a.md"])
      ["repo", "docs", "a.md"] "t.md" = [] :=
  md_relative_forms_agree c7FS 1 ["repo", "docs", "a.md"] "/docs/t.md" "./t.md" "t.md"
    ("docs/t.md".toList) (by decide) (by decide) (by decide) (by decide)
    (by decide) (by decide) (by decide)

lemma isPrefixOf_append_self (l r : List Char) : l.isPrefixOf (l ++ r) = true := by
  rw [List.isPrefixOf_iff_prefix]
  exact List.prefix_append l r

lemma containsSub_extend {n t : List Char} (s : List Char)
    (h : containsSub n t = true) : containsSub n (s ++ t) = true := by
  induction s with
  | nil => simpa
  | cons c s ih =>
    rw [List.cons_append, containsSub, ih]
    simp

lemma containsSub_self_append (n r : List Char) : containsSub n (n ++ r) = true := by
  cases n with
  | nil =>
    cases r with
    | nil => rfl
    | cons c r' =>
      rw [List.nil_append, containsSub]
      simp [List.isPrefixOf]
  | cons c n' =>
    rw [List.cons_append, containsSub]
    have h := isPrefixOf_append_self (c :: n') r
    rw [List.cons_append] at h
    rw [h]
    rfl

lemma segment_in_pathChars {seg : String} {p : List String} (h : seg ∈ p) :
    containsSub seg.toList (pathChars p) = true := by
  induction p with
  | nil => simp at h
  | cons s rest ih =>
    rw [pathChars, containsSub]
    rcases List.mem_cons.mp h with rfl | hm
    · rw [containsSub_self_append seg.toList (pathChars rest)]
      simp
    · rw [containsSub_extend s.toList (ih hm)]
      simp

/-- C8: a document whose path contains an `examples` segment is exempt:
the verifier returns the empty error list whatever links the document
holds (the code's substring test `"examples" in str(file_path)` is true
for every such path). -/
theorem md_examples_exempt (fs : FSView) (fuel : Nat) (file_path : List String)
    (links : List (String × String)) (h : "examples" ∈ file_path) :
    MdCheck.verify_links fs fuel file_path links = [] := by
  have hsub := segment_in_pathChars h
  rw [MdCheck.verify_links, if_pos hsub]

/-- C8 witness: a broken link inside `/projects/x/examples/t.md` yields no
error. -/
theorem md_examples_exempt_witness :
    MdCheck.verify_links rootGitFS 0 ["projects", "x", "examples", "t.md"]
      [("a", "./missing.md")] = [] :=
  md_examples_exempt rootGitFS 0 ["projects", "x", "examples", "t.md"]
    [("a", "./missing.md")] (by decide)

/-!
## Catalog/state consistency checker

`check_task_links.py`.  Configuration names (`type_name`, the states,
`"all"`, the current-file name) are single path components in `CONFIGS`,
so each `pathlib` join `repo_root / config.type_name / state` appends
exactly one segment and is embedded as `++ [config.type_name, state]`.
`pathlib` normalises the trailing slash away in
`repo_root / config.type_name / "all/"`, so the string used by the
current-pointer containment check is `pathStr (repo_root ++ [type_name,
"all"])` — the same prefix string, without trailing slash, that the
state-directory check uses.
-/

namespace TaskCheck

/-- `DirectoryConfig` dataclass. -/
structure DirectoryConfig where
  type_name : String
  states : List String
  special_files : List String
  current_file : Option String

/-- The `"tasks"` entry of `CONFIGS`. -/
def tasksConfig : DirectoryConfig where
  type_name := "tasks"
  states := ["new", "active", "paused", "done", "cancelled"]
  special_files := ["no-active-task.md"]
  current_file := some "CURRENT_TASK.md"

/-- The `"tweets"` entry of `CONFIGS`. -/
def tweetsConfig : DirectoryConfig where
  type_name := "tweets"
  states := ["new", "queued", "approved", "posted"]
  special_files := []
  current_file := none

/-- The `CONFIGS` dictionary. -/
def CONFIGS : List (String × DirectoryConfig) :=
  [("tasks", tasksConfig), ("tweets", tweetsConfig)]

/-- `CONFIGS[type_name]` lookup (`type_name not in CONFIGS` is `none`). -/
def configsLookup (tn : String) : Option DirectoryConfig :=
  (CONFIGS.find? (fun pr => pr.1 == tn)).map (fun pr => pr.2)

/-- `get_state_dirs`. -/
def get_state_dirs (repo_root : List String) (config : DirectoryConfig) : List (List String) :=
  config.states.map (fun st => repo_root ++ [config.type_name, st])

/-- The condition of `find_file_links`:
`link.is_symlink() and link.resolve() == file.resolve()`. -/
def linkMatches (fs : FSView) (file sd : List String) (n : String) : Bool :=
  fs.isSymlink (sd ++ [n]) && fs.resolve (sd ++ [n]) == fs.resolve file

/-- `find_file_links`: all symlinks in the state directories whose
resolution equals the file's resolution, in state-directory order (the
configured declaration order), glob order within one directory. -/
def find_file_links (fs : FSView) (file : List String) :
    List (List String) → List (List String)
  | [] => []
  | sd :: rest =>
    (fs.glob sd).filterMap
        (fun n => if linkMatches fs file sd n then some (sd ++ [n]) else none)
      ++ find_file_links fs file rest

/-- Number of matching symlinks for `file` inside one state directory. -/
def matchCount (fs : FSView) (file sd : List String) : Nat :=
  (fs.glob sd).countP (linkMatches fs file sd)

/-- `verify_current_file`.  The `try/except` around the resolution only
fires on filesystem exceptions, which the total abstract primitives
cannot raise. -/
def verify_current_file (fs : FSView) (repo_root : List String)
    (config : DirectoryConfig) : List String :=
  match config.current_file with
  | none => []
  | some cf =>
    if !fs.pathExists (repo_root ++ [cf]) then [cf ++ " does not exist"]
    else if !fs.isSymlink (repo_root ++ [cf]) then [cf ++ " is not a symlink"]
    else if !fs.pathExists (fs.resolve (repo_root ++ [cf])) then
      [cf ++ " points to non-existent file: " ++ pathStr (fs.resolve (repo_root ++ [cf]))]
    else if !strStartsWith (pathStr (fs.resolve (repo_root ++ [cf])))
        (pathStr (repo_root ++ [config.type_name, "all"])) then
      [cf ++ " points outside " ++ config.type_name ++ "/all/: "
        ++ pathStr (fs.resolve (repo_root ++ [cf]))]
    else []

/-- The per-file body of the first loop of `verify_links` (skip special
files; zero links → missing; more than one → multiple, states rendered in
the order the links were collected). -/
def check_catalog_entry (fs : FSView) (config : DirectoryConfig)
    (files_dir : List String) (state_dirs : List (List String)) (n : String) : List String :=
  if config.special_files.contains n then []
  else if (find_file_links fs (files_dir ++ [n]) state_dirs).isEmpty then
    ["Missing link: " ++ n ++ " not linked in any state directory"]
  else if (find_file_links fs (files_dir ++ [n]) state_dirs).length > 1 then
    ["Multiple links: " ++ n ++ " linked in multiple states: "
      ++ String.intercalate ", "
        ((find_file_links fs (files_dir ++ [n]) state_dirs).map parentName)]
  else []

/-- The first loop of `verify_links` over the catalog glob. -/
def check_catalog_files (fs : FSView) (config : DirectoryConfig)
    (files_dir : List String) (state_dirs : List (List String)) :
    List String → List String
  | [] => []
  | n :: ns =>
    check_catalog_entry fs config files_dir state_dirs n
      ++ check_catalog_files fs config files_dir state_dirs ns

/-- The per-entry body of the second loop of `verify_links` (not a
symlink / broken / invalid; containment by **string prefix** of the
rendered paths). -/
def check_state_entry (fs : FSView) (repo_root files_dir : List String)
    (type_name : String) (sd : List String) (n : String) : List String :=
  if !fs.isSymlink (sd ++ [n]) then
    ["Not a symlink: " ++ relStr repo_root (sd ++ [n])]
  else if !fs.pathExists (fs.resolve (sd ++ [n])) then
    ["Broken link: " ++ relStr repo_root (sd ++ [n]) ++ " -> "
      ++ pathStr (fs.resolve (sd ++ [n]))]
  else if !strStartsWith (pathStr (fs.resolve (sd ++ [n]))) (pathStr files_dir) then
    ["Invalid link: " ++ relStr repo_root (sd ++ [n]) ++ " points outside "
      ++ type_name ++ "/all/"]
  else []

/-- Second loop of `verify_links`, inner iteration over one state
directory's glob. -/
def check_state_entries (fs : FSView) (repo_root files_dir : List String)
    (type_name : String) (sd : List String) : List String → List String
  | [] => []
  | n :: ns =>
    check_state_entry fs repo_root files_dir type_name sd n
      ++ check_state_entries fs repo_root files_dir type_name sd ns

/-- Second loop of `verify_links`, outer iteration over the state
directories. -/
def check_state_dirs (fs : FSView) (repo_root files_dir : List String)
    (type_name : String) : List (List String) → List String
  | [] => []
  | sd :: rest =>
    check_state_entries fs repo_root files_dir type_name sd (fs.glob sd)
      ++ check_state_dirs fs repo_root files_dir type_name rest

/-- `verify_links` of `check_task_links.py`.  The `repo_root = None`
default (falling back to `find_repo_root(Path.cwd())`) is outside the
model; the root is passed explicitly, as in the script's own tests. -/
def verify_links (fs : FSView) (repo_root : List String) (type_name : String) : List String :=
  match configsLookup type_name with
  | none => ["Unknown type: " ++ type_name]
  | some config =>
    (if config.current_file.isSome then verify_current_file fs repo_root config else [])
      ++ check_catalog_files fs config (repo_root ++ [config.type_name, "all"])
          (get_state_dirs repo_root config)
          (fs.glob (repo_root ++ [config.type_name, "all"]))
      ++ check_state_dirs fs repo_root (repo_root ++ [config.type_name, "all"])
          config.type_name (get_state_dirs repo_root config)

end TaskCheck

lemma parentName_concat (sd : List String) (n : String) :
    parentName (sd ++ [n]) = sd.getLastD "" := by
  unfold parentName
  rw [List.dropLast_concat]

namespace TaskCheck

lemma filterMap_links_props (fs : FSView) (file sd : List String) (names : List String) :
    ((names.filterMap
        (fun n => if linkMatches fs file sd n then some (sd ++ [n]) else none)).map parentName
      = List.replicate (names.countP (linkMatches fs file sd)) (sd.getLastD "")) ∧
    ((names.filterMap
        (fun n => if linkMatches fs file sd n then some (sd ++ [n]) else none)).length
      = names.countP (linkMatches fs file sd)) := by
  induction names with
  | nil => simp
  | cons n ns ih =>
    rw [List.filterMap_cons, List.countP_cons]
    by_cases h : linkMatches fs file sd n
    · simp only [h, if_pos]
      constructor
      · rw [List.map_cons, parentName_concat, ih.1, List.replicate_succ]
      · rw [List.length_cons, ih.2]
    · simp only [h, if_neg, Bool.false_eq_true, if_false]
      simpa using ih

lemma find_file_links_characterization (fs : FSView) (root : List String) (tn : String)
    (file : List String) (sts : List String) :
    ((find_file_links fs file (sts.map (fun st => root ++ [tn, st]))).map parentName
      = sts.flatMap (fun st => List.replicate (matchCount fs file (root ++ [tn, st])) st)) ∧
    ((find_file_links fs file (sts.map (fun st => root ++ [tn, st]))).length
      = (sts.map (fun st => matchCount fs file (root ++ [tn, st]))).sum) := by
  induction sts with
  | nil => simp [find_file_links]
  | cons st sts ih =>
    rw [List.map_cons, find_file_links]
    have hlast : (root ++ [tn, st]).getLastD "" = st := by
      rw [show root ++ [tn, st] = (root ++ [tn]) ++ [st] by simp, List.getLastD_concat]
    obtain ⟨hm, hl⟩ := filterMap_links_props fs file (root ++ [tn, st]) (fs.glob (root ++ [tn, st]))
    constructor
    · rw [List.map_append, hm, hlast, ih.1, List.flatMap_cons]
      rfl
    · rw [List.length_append, hl, ih.2, List.map_cons, List.sum_cons]
      rfl

end TaskCheck

/-- C1: for a catalog entry `name` not in the exemption set, if no state
symlink resolves to it the entry check reports exactly the one
missing-link error naming it, and if two or more do (in total across all
state directories), it reports exactly the one multiple-links error whose
state list is `config.states.flatMap (replicate ∘ matchCount)` — i.e. the
involved states in configured declaration order (each state repeated once
per matching symlink), independent of the glob iteration order inside
each directory. -/
theorem catalog_entry_missing_multiple (fs : FSView) (root : List String)
    (config : TaskCheck.DirectoryConfig) (name : String)
    (hname : config.special_files.contains name = false) :
    ((∀ st ∈ config.states,
        TaskCheck.matchCount fs (root ++ [config.type_name, "all"] ++ [name])
          (root ++ [config.type_name, st]) = 0) →
      TaskCheck.check_catalog_entry fs config (root ++ [config.type_name, "all"])
          (TaskCheck.get_state_dirs root config) name
        = ["Missing link: " ++ name ++ " not linked in any state directory"]) ∧
    (2 ≤ (config.states.map (fun st =>
        TaskCheck.matchCount fs (root ++ [config.type_name, "all"] ++ [name])
          (root ++ [config.type_name, st]))).sum →
      TaskCheck.check_catalog_entry fs config (root ++ [config.type_name, "all"])
          (TaskCheck.get_state_dirs root config) name
        = ["Multiple links: " ++ name ++ " linked in multiple states: "
            ++ String.intercalate ", " (config.states.flatMap (fun st =>
                List.replicate (TaskCheck.matchCount fs
                  (root ++ [config.type_name, "all"] ++ [name])
                  (root ++ [config.type_name, st])) st))]) := by
  have hsd : TaskCheck.get_state_dirs root config
      = config.states.map (fun st => root ++ [config.type_name, st]) := rfl
  obtain ⟨hmap, hlen⟩ := TaskCheck.find_file_links_characterization fs root config.type_name
    (root ++ [config.type_name, "all"] ++ [name]) config.states
  constructor
  · intro h0
    have hsum : (config.states.map (fun st =>
        TaskCheck.matchCount fs (root ++ [config.type_name, "all"] ++ [name])
          (root ++ [config.type_name, st]))).sum = 0 := by
      rw [List.sum_eq_zero_iff]
      intro x hx
      obtain ⟨st, hst, rfl⟩ := List.mem_map.mp hx
      exact h0 st hst
    have hnil : TaskCheck.find_file_links fs (root ++ [config.type_name, "all"] ++ [name])
        (TaskCheck.get_state_dirs root config) = [] := by
      rw [hsd]
      exact List.length_eq_zero.mp (by rw [hlen, hsum])
    rw [TaskCheck.check_catalog_entry, hname, hnil]
    rfl
  · intro hsum2
    have hlenlinks : (TaskCheck.find_file_links fs
        (root ++ [config.type_name, "all"] ++ [name])
        (TaskCheck.get_state_dirs root config)).length
      = (config.states.map (fun st =>
          TaskCheck.matchCount fs (root ++ [config.type_name, "all"] ++ [name])
            (root ++ [config.type_name, st]))).sum := by
      rw [hsd]
      exact hlen
    rw [TaskCheck.check_catalog_entry, hname]
    rw [if_neg (by simp)]
    rw [if_neg (by
      rw [List.isEmpty_iff]
      intro hcon
      rw [hcon, List.length_nil] at hlenlinks
      omega)]
    rw [if_pos (show (TaskCheck.find_file_links fs
        (root ++ [config.type_name, "all"] ++ [name])
        (TaskCheck.get_state_dirs root config)).length > 1 by rw [hlenlinks]; exact hsum2)]
    rw [← hsd] at hmap
    rw [hmap]

/-- Filesystem for the C1 witness: catalog entry `task1.md` with symlinks
to it in both `new` and `active`. -/
def c1FS : FSView where
  pathExists := fun _ => true
  isSymlink := fun p =>
    p == ["tasks", "new", "task1.md"] || p == ["tasks", "active", "task1.md"]
  resolve := fun p =>
    if p == ["tasks", "new", "task1.md"] || p == ["tasks", "active", "task1.md"] then
      ["tasks", "all", "task1.md"]
    else p
  glob := fun d =>
    if d == ["tasks", "all"] || d == ["tasks", "new"] || d == ["tasks", "active"] then
      ["task1.md"]
    else []

/-- C1 witness: `task1.md` linked in both `new` and `active` yields the
single multiple-links error listing `new, active` in configured order. -/
theorem catalog_entry_missing_multiple_witness :
    TaskCheck.check_catalog_entry c1FS TaskCheck.tasksConfig
        ([] ++ [TaskCheck.tasksConfig.type_name, "all"])
        (TaskCheck.get_state_dirs [] TaskCheck.tasksConfig) "task1.md"
      = ["Multiple links: task1.md linked in multiple states: new, active"] := by
  have h := (catalog_entry_missing_multiple c1FS [] TaskCheck.tasksConfig "task1.md"
    (by decide)).2 (by decide)
  rw [h]
  decide

/-- Filesystem for C2: the state symlink `/repo/tasks/active/x.md`
resolves to `/repo/tasks/all-archive/x.md`, an existing file in a sibling
directory of the catalog `/repo/tasks/all`. -/
def c2FS : FSView where
  pathExists := fun p =>
    p == ["repo", "tasks", "all-archive", "x.md"] || p == ["repo", ".git"]
  isSymlink := fun p => p == ["repo", "tasks", "active", "x.md"]
  resolve := fun p =>
    if p == ["repo", "tasks", "active", "x.md"] then
      ["repo", "tasks", "all-archive", "x.md"]
    else p
  glob := fun d => if d == ["repo", "tasks", "active"] then ["x.md"] else []

/-- C2 (code bug): a state symlink whose resolved target exists but lies
OUTSIDE the catalog directory (the catalog `/repo/tasks/all` is not an
ancestor of `/repo/tasks/all-archive/x.md`) produces no `InvalidLink`
error, because the code tests containment with
`str(target).startswith(str(files_dir))` and `"/repo/tasks/all"` is a
string prefix of `"/repo/tasks/all-archive/x.md"`.  The first conjunct
evaluates the embedded checker at the failing input; the remaining
conjuncts establish that the input is a resolvable, existing target whose
segment-wise ancestor containment in the catalog directory fails. -/
theorem invalid_link_prefix_bug :
    TaskCheck.check_state_entry c2FS ["repo"] ["repo", "tasks", "all"] "tasks"
        ["repo", "tasks", "active"] "x.md" = [] ∧
    c2FS.isSymlink ["repo", "tasks", "active", "x.md"] = true ∧
    c2FS.pathExists (c2FS.resolve ["repo", "tasks", "active", "x.md"]) = true ∧
    List.isPrefixOf ["repo", "tasks", "all"]
      (c2FS.resolve ["repo", "tasks", "active", "x.md"]) = false := by
  refine ⟨by decide, by decide, by decide, by decide⟩

/-- C6: current-pointer validation short-circuits.  When the pointer does
not exist, the single does-not-exist error is reported and nothing else;
when it exists but is not a symlink, the single not-a-symlink error is
reported and nothing else (so those two errors are mutually exclusive and
no target existence/containment check is reported for an already-broken
pointer); in every case at most one error is produced per run. -/
theorem current_file_short_circuit (fs : FSView) (root : List String)
    (config : TaskCheck.DirectoryConfig) (cf : String)
    (hcf : config.current_file = some cf) :
    (fs.pathExists (root ++ [cf]) = false →
      TaskCheck.verify_current_file fs root config = [cf ++ " does not exist"]) ∧
    (fs.pathExists (root ++ [cf]) = true → fs.isSymlink (root ++ [cf]) = false →
      TaskCheck.verify_current_file fs root config = [cf ++ " is not a symlink"]) ∧
    (TaskCheck.verify_current_file fs root config).length ≤ 1 := by
  refine ⟨fun hex => ?_, fun hex hsym => ?_, ?_⟩
  · simp [TaskCheck.verify_current_file, hcf, hex]
  · simp [TaskCheck.verify_current_file, hcf, hex, hsym]
  · rw [TaskCheck.verify_current_file]
    cases config.current_file with
    | none => simp
    | some cf' =>
      split
      · simp
      · split
        · simp
        · split
          · simp
          · split
            · simp
            · split
              · simp
              · simp

/-- C6 witness: with the tasks configuration and a missing
`CURRENT_TASK.md`, exactly the does-not-exist error is produced. -/
theorem current_file_short_circuit_witness :
    TaskCheck.verify_current_file rootGitFS [] TaskCheck.tasksConfig
      = ["CURRENT_TASK.md does not exist"] := by
  have h := (current_file_short_circuit rootGitFS [] TaskCheck.tasksConfig
    "CURRENT_TASK.md" (by decide)).1 (by decide)
  rw [h]
  decide

/-- C10: calling the consistency checker's `verify_links` with a type
name absent from `CONFIGS` returns exactly the single-element list
`["Unknown type: <type_name>"]` — for every filesystem and every root, so
no filesystem primitive is consulted, and the total function cannot
raise. -/
theorem unknown_type_single_error (fs : FSView) (root : List String) (tn : String)
    (h : TaskCheck.configsLookup tn = none) :
    TaskCheck.verify_links fs root tn = ["Unknown type: " ++ tn] := by
  rw [TaskCheck.verify_links, h]

/-- C10 witness at the unknown type name `projects`. -/
theorem unknown_type_single_error_witness :
    TaskCheck.verify_links rootGitFS [] "projects" = ["Unknown type: " ++ "projects"] :=
  unknown_type_single_error rootGitFS [] "projects" rfl
